import Mathlib

/-!
# Budget ledger: a shallow embedding of `budget_ledger.py`

This file embeds the aggregation core of the budget-ledger tool
(`BudgetLedger` in `src/budget_ledger.py`) as executable Lean
definitions and proves the specification's claims about it.

Modelling conventions:
* A Python transaction dict becomes the structure `Transaction`.  The
  optional `'account'` key is an `Option String` (`none` = the key is
  absent, as on legacy records).  The `'date'` ISO timestamp is modelled
  by the calendar fields the code actually reads (`year`, `month`).
* Python `float` amounts become `ℚ` (the claims are about the exact
  arithmetic of the algorithms, not floating-point rounding).
* The `defaultdict(float)` used by `get_account_breakdown` becomes an
  insertion-ordered association list `List (String × ℚ)` with
  `dget` (read, defaulting to 0) and `dset` (write, updating in place
  or appending), which matches Python dict semantics including
  insertion order.
* Mutating methods become functions returning the new transaction list;
  `migrate_data` additionally returns the `updated` flag that decides
  whether `save_data` is triggered.
-/

namespace BudgetLedger

/-- The calendar fields of a transaction timestamp that the code reads
(via `datetime.fromisoformat(t['date']).year / .month`). -/
structure LDate where
  year : Nat
  month : Nat
deriving DecidableEq

/-- One transaction record, as built by `add_transaction` /
loaded from the store.  `account = none` models a legacy record whose
dict lacks the `'account'` key. -/
structure Transaction where
  date : LDate
  amount : ℚ
  category : String
  subcategory : String
  description : String
  account : Option String
deriving DecidableEq

/-- Python's `str.lower()`, character by character.  (The needles the
program searches for — `"cash"`, `"bank"`, `"invest"` — are ASCII, on
which this agrees with Python.) -/
def strLower (s : String) : String :=
  String.mk (s.toList.map Char.toLower)

/-- Bool test: does `n` occur as a contiguous sublist of `h`?
Embeds Python's `needle in haystack` substring test. -/
def hasSub (n : List Char) : List Char → Bool
  | [] => n.isEmpty
  | c :: h => n.isPrefixOf (c :: h) || hasSub n h

/-- Python `needle in haystack` on strings. -/
def strContains (hay needle : String) : Bool :=
  hasSub needle.toList hay.toList

/-- The account-inference rule applied to a lowercased description:
`'cash' in desc` → cash; else `'bank' in desc` → bank; else
`'invest' in desc` → invested; else default bank.  This chain occurs
twice in the source, in `get_account_breakdown` and in `migrate_data`. -/
def inferFromDesc (description : String) : String :=
  let descLower := strLower description
  if strContains descLower "cash" then "cash"
  else if strContains descLower "bank" then "bank"
  else if strContains descLower "invest" then "invested"
  else "bank"

/-- The account a transaction is attributed to in
`get_account_breakdown`: the explicit `'account'` value when the key is
present, otherwise the value inferred from the description. -/
def inferAccount (t : Transaction) : String :=
  match t.account with
  | some a => a
  | none => inferFromDesc t.description

/-- Dict read with default `0.0` (`defaultdict(float)` lookup /
`dict.get(k, 0)`). -/
def dget : List (String × ℚ) → String → ℚ
  | [], _ => 0
  | (k', v') :: m, k => if k' = k then v' else dget m k

/-- Dict write: update the existing entry in place, or append a new one
(Python dict assignment, which preserves insertion order). -/
def dset : List (String × ℚ) → String → ℚ → List (String × ℚ)
  | [], k, v => [(k, v)]
  | (k', v') :: m, k, v =>
      if k' = k then (k', v) :: m else (k', v') :: dset m k v

/-- Embeds `BudgetLedger.add_transaction`: build the record (timestamp = the
current time, passed here as `now`), append it, return it.  The Python
defaults `description=""`, `account="bank"` are kept as Lean default
arguments.  The first component is the new transaction list (whose
persistence `save_data` triggers); the second is the returned record. -/
def add_transaction (ts : List Transaction) (now : LDate) (amount : ℚ)
    (category subcategory : String) (description : String := "")
    (account : String := "bank") : List Transaction × Transaction :=
  let t : Transaction :=
    { date := now, amount := amount, category := category,
      subcategory := subcategory, description := description,
      account := some account }
  (ts ++ [t], t)

/-- Embeds `BudgetLedger.get_balance`: sum of income amounts minus sum of
expense amounts over the whole history. -/
def get_balance (ts : List Transaction) : ℚ :=
  let income := ((ts.filter (fun t => t.category = "income")).map
    (fun t => t.amount)).sum
  let expenses := ((ts.filter (fun t => t.category = "expenses")).map
    (fun t => t.amount)).sum
  income - expenses

/-- The body of the `for transaction in self.transactions` loop of
`get_account_breakdown`: resolve the account, then add/subtract per
category (`investments` moves money from `bank` to `invested`;
`savings` and unrecognized categories touch nothing). -/
def accountStep (m : List (String × ℚ)) (t : Transaction) :
    List (String × ℚ) :=
  let account := inferAccount t
  if t.category = "income" then
    dset m account (dget m account + t.amount)
  else if t.category = "expenses" then
    dset m account (dget m account - t.amount)
  else if t.category = "investments" then
    let m1 := dset m "invested" (dget m "invested" + t.amount)
    dset m1 "bank" (dget m1 "bank" - t.amount)
  else m

/-- Embeds `BudgetLedger.get_account_breakdown`: fold the loop body over the
transactions, then set `'net'` to the sum of every other entry. -/
def get_account_breakdown (ts : List Transaction) : List (String × ℚ) :=
  let m := ts.foldl accountStep []
  dset m "net" (((m.filter (fun p => p.1 ≠ "net")).map Prod.snd).sum)

/-- The result dict of `get_monthly_summary`. -/
structure MonthlySummary where
  income : ℚ
  expenses : ℚ
  savings : ℚ
  investments : ℚ
  net : ℚ
  savings_rate : ℚ
deriving DecidableEq

/-- Embeds `BudgetLedger.get_monthly_summary`: filter the transactions whose
timestamp falls in the given year and month, sum each category, set
`net = income - expenses` and `savings_rate = savings/income*100` when
`income > 0`, else `0`. -/
def get_monthly_summary (ts : List Transaction) (year month : Nat) :
    MonthlySummary :=
  let monthly := ts.filter
    (fun t => t.date.year = year ∧ t.date.month = month)
  let income := ((monthly.filter (fun t => t.category = "income")).map
    (fun t => t.amount)).sum
  let expenses := ((monthly.filter (fun t => t.category = "expenses")).map
    (fun t => t.amount)).sum
  let savings := ((monthly.filter (fun t => t.category = "savings")).map
    (fun t => t.amount)).sum
  let investments :=
    ((monthly.filter (fun t => t.category = "investments")).map
      (fun t => t.amount)).sum
  { income := income, expenses := expenses, savings := savings,
    investments := investments, net := income - expenses,
    savings_rate :=
      if 0 < income then savings / income * 100 else 0 }

/-- The per-record body of the `migrate_data` loop: a record that lacks
the `'account'` key gets one, inferred from its description; any other
record is untouched. -/
def migrateRecord (t : Transaction) : Transaction :=
  match t.account with
  | some _ => t
  | none => { t with account := some (inferFromDesc t.description) }

/-- Embeds `BudgetLedger.migrate_data`: backfill `'account'` on every legacy
record.  The second component is the `updated` flag: `save_data` runs
iff it is `true`, i.e. iff some record lacked the key. -/
def migrate_data (ts : List Transaction) : List Transaction × Bool :=
  (ts.map migrateRecord, ts.any (fun t => t.account.isNone))

/-! ## Helper definitions and lemmas -/

/-- Net contribution of one transaction to `get_balance`: `+amount` for
income, `-amount` for expenses, `0` for everything else. -/
def balanceContribution (t : Transaction) : ℚ :=
  if t.category = "income" then t.amount
  else if t.category = "expenses" then -t.amount
  else 0

lemma get_balance_nil : get_balance [] = 0 := by
  simp [get_balance]

lemma get_balance_cons (t : Transaction) (ts : List Transaction) :
    get_balance (t :: ts) = balanceContribution t + get_balance ts := by
  by_cases h1 : t.category = "income" <;>
    by_cases h2 : t.category = "expenses" <;>
      simp [get_balance, balanceContribution, List.filter_cons, h1, h2] <;>
      ring

lemma get_balance_eq_sum (ts : List Transaction) :
    get_balance ts = (ts.map balanceContribution).sum := by
  induction ts with
  | nil => simp [get_balance_nil]
  | cons t ts ih => rw [get_balance_cons, ih]; simp

lemma migrateRecord_isSome (t : Transaction) :
    (migrateRecord t).account.isSome = true := by
  cases h : t.account <;> simp [migrateRecord, h]

lemma migrateRecord_idem (t : Transaction) :
    migrateRecord (migrateRecord t) = migrateRecord t := by
  cases h : t.account <;> simp [migrateRecord, h]

lemma inferAccount_migrateRecord (t : Transaction) :
    inferAccount (migrateRecord t) = inferAccount t := by
  cases h : t.account <;> simp [migrateRecord, inferAccount, h]

lemma migrateRecord_category (t : Transaction) :
    (migrateRecord t).category = t.category := by
  cases h : t.account <;> simp [migrateRecord, h]

lemma migrateRecord_amount (t : Transaction) :
    (migrateRecord t).amount = t.amount := by
  cases h : t.account <;> simp [migrateRecord, h]

lemma accountStep_migrateRecord (m : List (String × ℚ)) (t : Transaction) :
    accountStep m (migrateRecord t) = accountStep m t := by
  simp [accountStep, migrateRecord_category, migrateRecord_amount,
    inferAccount_migrateRecord]

/-! ## Claims -/

/-- C1: `get_balance` is the sum of income amounts minus the sum of
expense amounts: every transaction contributes `+amount` if income,
`-amount` if expenses, and nothing for `savings`, `investments` or any
unrecognized category; recording (5000, income, salary) then
(1200, expenses, housing) into an empty ledger yields balance 3800. -/
theorem balance_is_income_minus_expenses :
    (∀ ts : List Transaction,
      get_balance ts = (ts.map balanceContribution).sum)
    ∧ (∀ t : Transaction, t.category ≠ "income" →
        t.category ≠ "expenses" → balanceContribution t = 0)
    ∧ (∀ d : LDate,
        get_balance (add_transaction
          (add_transaction [] d 5000 "income" "salary").1
          d 1200 "expenses" "housing").1 = 3800) := by
  refine ⟨get_balance_eq_sum, ?_, ?_⟩
  · intro t h1 h2
    simp [balanceContribution, h1, h2]
  · intro d
    simp [add_transaction, get_balance, List.filter_cons]
    norm_num

/-- Witness for C1 at a concrete savings transaction and date. -/
theorem balance_is_income_minus_expenses_witness :
    balanceContribution
      ⟨⟨2024, 1⟩, 500, "savings", "emergency", "", some "bank"⟩ = 0 :=
  balance_is_income_minus_expenses.2.1 _ (by decide) (by decide)

/-- C4: `savings_rate` equals `savings / income * 100` when the month's
income is strictly positive, and is exactly 0 otherwise; the guard means
its computation never divides by zero. -/
theorem savings_rate_guarded (ts : List Transaction) (year month : Nat) :
    (0 < (get_monthly_summary ts year month).income →
      (get_monthly_summary ts year month).savings_rate =
        (get_monthly_summary ts year month).savings /
          (get_monthly_summary ts year month).income * 100)
    ∧ (¬ 0 < (get_monthly_summary ts year month).income →
        (get_monthly_summary ts year month).savings_rate = 0) := by
  constructor <;> intro h <;> simp [get_monthly_summary] at h ⊢ <;>
    simp [h]

/-- Witness for C4: the empty ledger has zero income in 2024-01, so the
savings rate is exactly 0. -/
theorem savings_rate_guarded_witness :
    (get_monthly_summary [] 2024 1).savings_rate = 0 :=
  (savings_rate_guarded [] 2024 1).2
    (by simp [get_monthly_summary])

/-- C5: `migrate_data` is idempotent: a second run right after the first
changes no record and reports `updated = false` (so it triggers no
persistence), and after the first run every record has an account. -/
theorem migrate_data_idempotent (ts : List Transaction) :
    (migrate_data (migrate_data ts).1).1 = (migrate_data ts).1
    ∧ (migrate_data (migrate_data ts).1).2 = false
    ∧ ∀ t ∈ (migrate_data ts).1, t.account.isSome = true := by
  refine ⟨?_, ?_, ?_⟩
  · simp [migrate_data, migrateRecord_idem]
  · simp only [migrate_data, List.any_eq_false]
    intro t ht
    rcases List.mem_map.mp ht with ⟨u, _, rfl⟩
    cases hu : u.account <;> simp [migrateRecord, hu]
  · intro t ht
    rcases List.mem_map.mp ht with ⟨u, _, rfl⟩
    exact migrateRecord_isSome u

/-- Witness for C5 on a one-element legacy ledger. -/
theorem migrate_data_idempotent_witness :
    (⟨⟨2024, 1⟩, 10, "income", "salary", "cash tips", some "cash"⟩ :
      Transaction).account.isSome = true :=
  (migrate_data_idempotent
      [⟨⟨2024, 1⟩, 10, "income", "salary", "cash tips", none⟩]).2.2
    ⟨⟨2024, 1⟩, 10, "income", "salary", "cash tips", some "cash"⟩
    (by decide)

/-- C6: `migrate_data` modifies exactly the records lacking an account:
length and order are preserved, a record that already has an account is
returned unchanged, and a record without one gets exactly its account
set — by the case-insensitive substring rule over its description
(cash → cash, else bank → bank, else invest → invested, else bank) —
with every other field untouched. -/
theorem migrate_data_frame (ts : List Transaction) :
    (migrate_data ts).1.length = ts.length
    ∧ ∀ (i : Nat) (t : Transaction), ts[i]? = some t →
        (t.account.isSome = true → ((migrate_data ts).1)[i]? = some t)
        ∧ (t.account = none →
            ((migrate_data ts).1)[i]? = some
              { t with account := some (
                  if strContains (strLower t.description) "cash"
                  then "cash"
                  else if strContains (strLower t.description) "bank"
                  then "bank"
                  else if strContains (strLower t.description) "invest"
                  then "invested"
                  else "bank") }) := by
  refine ⟨by simp [migrate_data], ?_⟩
  intro i t ht
  constructor <;> intro h
  · cases ha : t.account with
    | none => rw [ha] at h; simp at h
    | some a =>
        simp [migrate_data, List.getElem?_map, ht, migrateRecord, ha]
  · simp [migrate_data, List.getElem?_map, ht, migrateRecord, h,
      inferFromDesc]

/-- Witness for C6 on a two-record ledger: the legacy record at index 1
gets account `invested` inferred from its description. -/
theorem migrate_data_frame_witness :
    ((migrate_data
      [⟨⟨2023, 5⟩, 20, "expenses", "food", "lunch", some "cash"⟩,
       ⟨⟨2023, 6⟩, 30, "investments", "stocks", "Reinvested gains",
         none⟩]).1)[1]? = some
      ⟨⟨2023, 6⟩, 30, "investments", "stocks", "Reinvested gains",
        some "invested"⟩ := by
  have h := (migrate_data_frame
    [⟨⟨2023, 5⟩, 20, "expenses", "food", "lunch", some "cash"⟩,
     ⟨⟨2023, 6⟩, 30, "investments", "stocks", "Reinvested gains",
       none⟩]).2 1
    ⟨⟨2023, 6⟩, 30, "investments", "stocks", "Reinvested gains", none⟩
    (by decide)
  rw [(h.2 rfl)]
  decide

/-- C8: `add_transaction` appends exactly one record — carrying the
given timestamp, amount, category, subcategory, description and account
— to the end of the list, leaves every earlier record unchanged,
returns the created record, and defaults `description` to `""` and
`account` to `"bank"` when unspecified. -/
theorem add_transaction_appends (ts : List Transaction) (d : LDate)
    (amount : ℚ) (category subcategory description account : String) :
    add_transaction ts d amount category subcategory description
        account =
      (ts ++ [{ date := d, amount := amount, category := category,
                subcategory := subcategory, description := description,
                account := some account }],
       { date := d, amount := amount, category := category,
         subcategory := subcategory, description := description,
         account := some account })
    ∧ add_transaction ts d amount category subcategory =
        add_transaction ts d amount category subcategory "" "bank" :=
  ⟨rfl, rfl⟩

/-- C10: `get_account_breakdown` is invariant under migration: the
breakdown after `migrate_data` equals the breakdown before, because
both use the same account inference. -/
theorem breakdown_invariant_under_migration (ts : List Transaction) :
    get_account_breakdown (migrate_data ts).1 =
      get_account_breakdown ts := by
  have key : ∀ m : List (String × ℚ),
      (ts.map migrateRecord).foldl accountStep m =
        ts.foldl accountStep m := by
    induction ts with
    | nil => intro m; rfl
    | cons t ts ih =>
        intro m
        simp only [List.map_cons, List.foldl_cons,
          accountStep_migrateRecord]
        exact ih _
  simp [get_account_breakdown, migrate_data, key]

/-! ## Dictionary lemmas for the account breakdown -/

lemma dget_dset (m : List (String × ℚ)) (k : String) (v : ℚ)
    (a : String) :
    dget (dset m k v) a = if k = a then v else dget m a := by
  induction m with
  | nil => simp [dset, dget]
  | cons p m ih =>
      obtain ⟨k', v'⟩ := p
      by_cases h : k' = k
      · subst h
        by_cases ha : k' = a <;> simp [dset, dget, ha]
      · by_cases ha : k' = a
        · subst ha
          have hk : ¬ k = k' := fun hh => h hh.symm
          simp [dset, dget, h, hk]
        · simp [dset, dget, h, ha, ih]

lemma sum_dset (m : List (String × ℚ)) (k : String) (v : ℚ) :
    ((dset m k v).map Prod.snd).sum =
      (m.map Prod.snd).sum + v - dget m k := by
  induction m with
  | nil => simp [dset, dget]
  | cons p m ih =>
      obtain ⟨k', v'⟩ := p
      by_cases h : k' = k
      · subst h; simp [dset, dget]; ring
      · simp [dset, dget, h, ih]; ring

lemma filterne_dset (m : List (String × ℚ)) (k : String) (v : ℚ) :
    (dset m k v).filter (fun p => p.1 ≠ k) =
      m.filter (fun p => p.1 ≠ k) := by
  induction m with
  | nil => simp [dset]
  | cons p m ih =>
      obtain ⟨k', v'⟩ := p
      simp only [ne_eq, decide_not] at ih ⊢
      by_cases h : k' = k
      · subst h; simp [dset, List.filter_cons]
      · simp [dset, List.filter_cons, h, ih]

lemma keys_dset (m : List (String × ℚ)) (k : String) (v : ℚ) :
    (dset m k v).map Prod.fst =
      if k ∈ m.map Prod.fst then m.map Prod.fst
      else m.map Prod.fst ++ [k] := by
  induction m with
  | nil => simp [dset]
  | cons p m ih =>
      obtain ⟨k', v'⟩ := p
      by_cases h : k' = k
      · subst h; simp [dset]
      · have hne : ¬ k = k' := fun hh => h hh.symm
        by_cases hm : k ∈ m.map Prod.fst <;>
          simp [dset, h, hne, hm, ih]

lemma nodup_dset (m : List (String × ℚ)) (k : String) (v : ℚ)
    (h : (m.map Prod.fst).Nodup) :
    ((dset m k v).map Prod.fst).Nodup := by
  rw [keys_dset]
  by_cases hm : k ∈ m.map Prod.fst
  · simpa [hm] using h
  · simp [hm, List.nodup_append, h]

lemma filterne_of_not_mem (m : List (String × ℚ)) (k : String)
    (h : k ∉ m.map Prod.fst) :
    m.filter (fun p => p.1 ≠ k) = m := by
  induction m with
  | nil => rfl
  | cons p m ih =>
      obtain ⟨k', v'⟩ := p
      simp only [List.map_cons, List.mem_cons, not_or] at h
      have h1 : ¬ k' = k := fun hh => h.1 hh.symm
      rw [List.filter_cons, if_pos (by simp [h1]), ih h.2]

lemma dget_of_not_mem (m : List (String × ℚ)) (k : String)
    (h : k ∉ m.map Prod.fst) :
    dget m k = 0 := by
  induction m with
  | nil => rfl
  | cons p m ih =>
      obtain ⟨k', v'⟩ := p
      simp only [List.map_cons, List.mem_cons, not_or] at h
      have h1 : ¬ k' = k := fun hh => h.1 hh.symm
      simp [dget, h1, ih h.2]

lemma filterne_sum (m : List (String × ℚ)) (k : String)
    (h : (m.map Prod.fst).Nodup) :
    ((m.filter (fun p => p.1 ≠ k)).map Prod.snd).sum =
      (m.map Prod.snd).sum - dget m k := by
  induction m with
  | nil => simp [dget]
  | cons p m ih =>
      obtain ⟨k', v'⟩ := p
      simp only [List.map_cons, List.nodup_cons] at h
      by_cases hk : k' = k
      · subst hk
        have hnot : k' ∉ m.map Prod.fst := h.1
        have e1 := filterne_of_not_mem m k' hnot
        have e2 := dget_of_not_mem m k' hnot
        simp only [ne_eq, decide_not] at e1 ⊢
        simp [List.filter_cons, dget, e1, e2]
      · have h1 : ¬ k = k' := fun hh => hk hh.symm
        simp only [ne_eq, decide_not] at ih ⊢
        simp [List.filter_cons, hk, dget, h1, ih h.2]
        ring

/-- Contribution of one transaction to the bucket named `a`, per the
accumulation rule of `get_account_breakdown`: income adds `amount` to
the transaction's (explicit or inferred) account; expenses subtract it;
investments add `amount` to `invested` and subtract it from `bank`
regardless of the transaction's account; savings and unrecognized
categories touch nothing. -/
def bucketContribution (a : String) (t : Transaction) : ℚ :=
  if t.category = "income" then
    (if inferAccount t = a then t.amount else 0)
  else if t.category = "expenses" then
    (if inferAccount t = a then -t.amount else 0)
  else if t.category = "investments" then
    (if a = "invested" then t.amount else 0) +
      (if a = "bank" then -t.amount else 0)
  else 0

lemma dget_accountStep (m : List (String × ℚ)) (t : Transaction)
    (a : String) :
    dget (accountStep m t) a = dget m a + bucketContribution a t := by
  unfold accountStep bucketContribution
  by_cases h1 : t.category = "income"
  · by_cases ha : inferAccount t = a <;>
      simp [h1, dget_dset, ha]
  · by_cases h2 : t.category = "expenses"
    · by_cases ha : inferAccount t = a
      · simp [h1, h2, dget_dset, ha]; ring
      · simp [h1, h2, dget_dset, ha]
    · by_cases h3 : t.category = "investments"
      · have hib : ("invested" : String) ≠ "bank" := by decide
        by_cases ha1 : a = "invested"
        · subst ha1
          have hb : ¬ ("bank" : String) = "invested" := by decide
          simp [h1, h2, h3, dget_dset, hb]
        · by_cases ha2 : a = "bank"
          · subst ha2
            simp [h1, h2, h3, dget_dset, hib]
            ring
          · have hv : ¬ ("invested" : String) = a :=
              fun hh => ha1 hh.symm
            have hb : ¬ ("bank" : String) = a :=
              fun hh => ha2 hh.symm
            simp [h1, h2, h3, dget_dset, hv, hb, ha1, ha2]
      · simp [h1, h2, h3]

lemma dget_foldl (ts : List Transaction) :
    ∀ (m : List (String × ℚ)) (a : String),
      dget (ts.foldl accountStep m) a =
        dget m a + (ts.map (bucketContribution a)).sum := by
  induction ts with
  | nil => intro m a; simp
  | cons t ts ih =>
      intro m a
      simp only [List.foldl_cons, List.map_cons, List.sum_cons]
      rw [ih, dget_accountStep]
      ring

lemma sum_accountStep (m : List (String × ℚ)) (t : Transaction) :
    ((accountStep m t).map Prod.snd).sum =
      (m.map Prod.snd).sum + balanceContribution t := by
  unfold accountStep balanceContribution
  by_cases h1 : t.category = "income"
  · simp [h1, sum_dset]; ring
  · by_cases h2 : t.category = "expenses"
    · simp [h1, h2, sum_dset]; ring
    · by_cases h3 : t.category = "investments"
      · have hib : ¬ ("invested" : String) = "bank" := by decide
        simp [h1, h2, h3, sum_dset, dget_dset, hib]
        ring
      · simp [h1, h2, h3]

lemma sum_foldl (ts : List Transaction) :
    ∀ m : List (String × ℚ),
      ((ts.foldl accountStep m).map Prod.snd).sum =
        (m.map Prod.snd).sum + (ts.map balanceContribution).sum := by
  induction ts with
  | nil => intro m; simp
  | cons t ts ih =>
      intro m
      simp only [List.foldl_cons, List.map_cons, List.sum_cons]
      rw [ih, sum_accountStep]
      ring

lemma nodup_accountStep (m : List (String × ℚ)) (t : Transaction)
    (h : (m.map Prod.fst).Nodup) :
    ((accountStep m t).map Prod.fst).Nodup := by
  unfold accountStep
  by_cases h1 : t.category = "income"
  · simp only [h1, if_pos rfl]; exact nodup_dset _ _ _ h
  · by_cases h2 : t.category = "expenses"
    · simp [h1, h2]; exact nodup_dset _ _ _ h
    · by_cases h3 : t.category = "investments"
      · simp [h1, h2, h3]; exact nodup_dset _ _ _ (nodup_dset _ _ _ h)
      · simpa [h1, h2, h3] using h

lemma nodup_foldl (ts : List Transaction) :
    ∀ m : List (String × ℚ), (m.map Prod.fst).Nodup →
      ((ts.foldl accountStep m).map Prod.fst).Nodup := by
  induction ts with
  | nil => intro m h; simpa using h
  | cons t ts ih =>
      intro m h
      exact ih _ (nodup_accountStep m t h)

/-- C2: every non-`net` entry of `get_account_breakdown` is the fold,
from zero, of the per-transaction bucket rule (income adds to the
transaction's account, expenses subtract, investments move `amount`
from `bank` to `invested` ignoring the transaction's account, savings
and unknown categories do nothing), and the `net` entry is the sum of
all other entries. -/
theorem breakdown_matches_bucket_rule (ts : List Transaction) :
    (∀ a : String, a ≠ "net" →
      dget (get_account_breakdown ts) a =
        (ts.map (bucketContribution a)).sum)
    ∧ dget (get_account_breakdown ts) "net" =
        (((get_account_breakdown ts).filter
          (fun p => p.1 ≠ "net")).map Prod.snd).sum := by
  constructor
  · intro a ha
    have hna : ¬ ("net" : String) = a := fun hh => ha hh.symm
    unfold get_account_breakdown
    rw [dget_dset, if_neg hna, dget_foldl]
    simp [dget]
  · unfold get_account_breakdown
    rw [dget_dset, if_pos rfl, filterne_dset]

/-- Witness for C2: the `cash` bucket of a one-transaction ledger. -/
theorem breakdown_matches_bucket_rule_witness :
    dget (get_account_breakdown
      [⟨⟨2024, 1⟩, 100, "income", "salary", "", some "cash"⟩]) "cash" =
      ([⟨⟨2024, 1⟩, 100, "income", "salary", "", some "cash"⟩].map
        (bucketContribution "cash")).sum :=
  (breakdown_matches_bucket_rule _).1 "cash" (by decide)

/-- A transaction whose explicit account field is the string `"net"`:
`add_transaction` and the loader accept arbitrary account strings, so
this record is reachable. -/
def netAccountTx : Transaction :=
  { date := ⟨2024, 1⟩, amount := 100, category := "income",
    subcategory := "salary", description := "", account := some "net" }

/-- C9 counterexample: on the one-transaction ledger `[netAccountTx]`
the income lands in the `net` bucket, which the final `net`-assignment
overwrites with the sum of the *other* buckets — 0 — while
`get_balance` is 100.  So the `net` entry does not always equal
`get_balance`. -/
theorem net_entry_ne_balance :
    ¬ dget (get_account_breakdown [netAccountTx]) "net" =
        get_balance [netAccountTx] := by
  have h1 : get_account_breakdown [netAccountTx] = [("net", 0)] := by
    simp [get_account_breakdown, accountStep, netAccountTx,
      inferAccount, dset, dget]
  have h2 : get_balance [netAccountTx] = 100 := by
    simp [get_balance, netAccountTx, List.filter_cons]
  rw [h1, h2]
  simp [dget]

/-- C9 (amended): for every ledger in which no transaction is
attributed to an account literally named `"net"` — the inference rule
only ever yields `cash`/`bank`/`invested`, so only an explicit
`account = "net"` field can violate this — the `net` entry of
`get_account_breakdown` equals `get_balance`. -/
theorem net_entry_eq_balance (ts : List Transaction)
    (h : ∀ t ∈ ts, inferAccount t ≠ "net") :
    dget (get_account_breakdown ts) "net" = get_balance ts := by
  unfold get_account_breakdown
  rw [dget_dset, if_pos rfl,
    filterne_sum _ _ (nodup_foldl ts [] (by simp)),
    sum_foldl, dget_foldl]
  have hz : (ts.map (bucketContribution "net")).sum = 0 := by
    apply List.sum_eq_zero
    intro x hx
    rcases List.mem_map.mp hx with ⟨t, ht, rfl⟩
    have hnet := h t ht
    unfold bucketContribution
    have e1 : ¬ ("net" : String) = "invested" := by decide
    have e2 : ¬ ("net" : String) = "bank" := by decide
    by_cases h1 : t.category = "income"
    · simp [h1, hnet]
    · by_cases h2 : t.category = "expenses"
      · simp [h1, h2, hnet]
      · by_cases h3 : t.category = "investments" <;>
          simp [h1, h2, h3, e1, e2]
  rw [hz, get_balance_eq_sum]
  simp [dget]

/-- Witness for the amended C9 on a two-transaction ledger with
ordinary accounts. -/
theorem net_entry_eq_balance_witness :
    dget (get_account_breakdown
      [⟨⟨2024, 1⟩, 5000, "income", "salary", "", some "bank"⟩,
       ⟨⟨2024, 1⟩, 1200, "expenses", "housing", "", some "cash"⟩])
      "net" =
      get_balance
        [⟨⟨2024, 1⟩, 5000, "income", "salary", "", some "bank"⟩,
         ⟨⟨2024, 1⟩, 1200, "expenses", "housing", "", some "cash"⟩] :=
  net_entry_eq_balance _ (by decide)

/-! ## Filter lemmas for the monthly summary -/

lemma filter_middle {α : Type} (p : α → Prop) [DecidablePred p]
    (ts₁ ts₂ : List α) (t : α) (h : ¬ p t) :
    (ts₁ ++ t :: ts₂).filter (fun a => p a) =
      (ts₁ ++ ts₂).filter (fun a => p a) := by
  simp [List.filter_append, List.filter_cons, h]

lemma filter_and_comm {α : Type} (p q : α → Prop) [DecidablePred p]
    [DecidablePred q] (l : List α) :
    (l.filter (fun a => q a)).filter (fun a => p a) =
      l.filter (fun a => q a ∧ p a) := by
  induction l with
  | nil => rfl
  | cons a l ih =>
      by_cases hq : q a <;> by_cases hp : p a <;>
        simp [List.filter_cons, hq, hp, ih]

/-- C3: monthly-summary filtering is exact.  A transaction dated
outside the given year/month contributes to no field of the summary,
each category field is the sum of the amounts of the in-month
transactions of that category, and `net = income - expenses`. -/
theorem monthly_summary_exact :
    (∀ (ts₁ ts₂ : List Transaction) (t : Transaction)
        (year month : Nat),
      ¬ (t.date.year = year ∧ t.date.month = month) →
      get_monthly_summary (ts₁ ++ t :: ts₂) year month =
        get_monthly_summary (ts₁ ++ ts₂) year month)
    ∧ (∀ (ts : List Transaction) (year month : Nat),
        (get_monthly_summary ts year month).income =
          ((ts.filter (fun t =>
            (t.date.year = year ∧ t.date.month = month) ∧
              t.category = "income")).map (fun t => t.amount)).sum
        ∧ (get_monthly_summary ts year month).expenses =
            ((ts.filter (fun t =>
              (t.date.year = year ∧ t.date.month = month) ∧
                t.category = "expenses")).map (fun t => t.amount)).sum
        ∧ (get_monthly_summary ts year month).savings =
            ((ts.filter (fun t =>
              (t.date.year = year ∧ t.date.month = month) ∧
                t.category = "savings")).map (fun t => t.amount)).sum
        ∧ (get_monthly_summary ts year month).investments =
            ((ts.filter (fun t =>
              (t.date.year = year ∧ t.date.month = month) ∧
                t.category = "investments")).map (fun t => t.amount)).sum
        ∧ (get_monthly_summary ts year month).net =
            (get_monthly_summary ts year month).income -
              (get_monthly_summary ts year month).expenses) := by
  constructor
  · intro ts₁ ts₂ t year month h
    have hf := filter_middle
      (fun u : Transaction =>
        u.date.year = year ∧ u.date.month = month) ts₁ ts₂ t h
    simp only [get_monthly_summary, hf]
  · intro ts year month
    refine ⟨?_, ?_, ?_, ?_, ?_⟩
    · simp only [get_monthly_summary]; rw [filter_and_comm]
    · simp only [get_monthly_summary]; rw [filter_and_comm]
    · simp only [get_monthly_summary]; rw [filter_and_comm]
    · simp only [get_monthly_summary]; rw [filter_and_comm]
    · simp only [get_monthly_summary]

/-- Witness for C3: a December 2023 transaction contributes nothing to
the January 2024 summary. -/
theorem monthly_summary_exact_witness :
    get_monthly_summary
      [⟨⟨2023, 12⟩, 50, "income", "salary", "", some "bank"⟩] 2024 1 =
      get_monthly_summary [] 2024 1 :=
  monthly_summary_exact.1 [] [] _ 2024 1 (by decide)

/-- C7: the aggregations degrade gracefully instead of failing: a month
without income yields savings rate exactly 0, and a transaction with an
unrecognized category is excluded from `get_balance`, from every field
of `get_monthly_summary`, and from `get_account_breakdown`.  (All three
aggregations are total functions of the transaction list.) -/
theorem aggregation_degrades_gracefully :
    (∀ (ts : List Transaction) (year month : Nat),
      (get_monthly_summary ts year month).income = 0 →
      (get_monthly_summary ts year month).savings_rate = 0)
    ∧ (∀ (ts₁ ts₂ : List Transaction) (t : Transaction)
        (year month : Nat),
        t.category ∉
          (["income", "expenses", "savings", "investments"] :
            List String) →
        get_balance (ts₁ ++ t :: ts₂) = get_balance (ts₁ ++ ts₂)
        ∧ get_monthly_summary (ts₁ ++ t :: ts₂) year month =
            get_monthly_summary (ts₁ ++ ts₂) year month
        ∧ get_account_breakdown (ts₁ ++ t :: ts₂) =
            get_account_breakdown (ts₁ ++ ts₂)) := by
  constructor
  · intro ts year month h
    simp only [get_monthly_summary] at h ⊢
    rw [h]
    norm_num
  · intro ts₁ ts₂ t year month hc
    simp only [List.mem_cons, List.not_mem_nil, not_or] at hc
    obtain ⟨h1, h2, h3, h4, -⟩ := hc
    refine ⟨?_, ?_, ?_⟩
    · rw [get_balance_eq_sum, get_balance_eq_sum]
      simp [balanceContribution, h1, h2]
    · have key : ∀ c : String, t.category ≠ c →
          ((ts₁ ++ t :: ts₂).filter (fun u =>
            u.date.year = year ∧ u.date.month = month)).filter
              (fun u => u.category = c) =
          ((ts₁ ++ ts₂).filter (fun u =>
            u.date.year = year ∧ u.date.month = month)).filter
              (fun u => u.category = c) := by
        intro c hcne
        rw [filter_and_comm, filter_and_comm]
        exact filter_middle _ _ _ _ (fun hp => hcne hp.2)
      simp only [get_monthly_summary]
      rw [key "income" h1, key "expenses" h2, key "savings" h3,
        key "investments" h4]
    · have hstep : ∀ m, accountStep m t = m := by
        intro m; simp [accountStep, h1, h2, h4]
      simp [get_account_breakdown, List.foldl_append, hstep]

/-- Witness for C7: empty ledger (zero income) and a transaction of
category `transfer`. -/
theorem aggregation_degrades_gracefully_witness :
    (get_monthly_summary [] 2024 1).savings_rate = 0
    ∧ get_balance
        [⟨⟨2024, 1⟩, 42, "transfer", "misc", "", some "bank"⟩] =
        get_balance [] :=
  ⟨aggregation_degrades_gracefully.1 [] 2024 1
      (by simp [get_monthly_summary]),
   (aggregation_degrades_gracefully.2 [] [] _ 2024 1 (by decide)).1⟩

end BudgetLedger
